import Mathlib

/-!
Verification of the Chirpy server authentication/session core.

Go strings are immutable byte sequences; we model them as `List Nat`
(each element a byte value). ASCII string literals are converted with
`strBytes`. External library behavior (crypto/hmac, crypto/sha256,
encoding/base64, encoding/hex, encoding/json, github.com/golang-jwt/jwt/v5,
github.com/google/uuid) is modeled bit-for-bit at the granularity the
repository exercises; each such model carries a doc comment naming the
library function it mirrors.
-/

/-- A Go string or byte slice, as its sequence of byte values. -/
abbrev Bytes := List Nat

/-- Byte values of an ASCII Lean string literal. -/
def strBytes (s : String) : Bytes := s.data.map Char.toNat

namespace auth

/-- Result of a Go call that returns `(T, error)` but may also panic
(`GetBearerToken` indexes `strings.Fields(...)[1]` unchecked). -/
inductive GoResult (α : Type) where
  | ok (a : α)
  | err
  | panics
deriving DecidableEq, Repr

/-- `GoResult.isErr`: true exactly on the error outcome. -/
def GoResult.isErr {α : Type} : GoResult α → Bool
  | .err => true
  | _ => false

/-- Modelled from the Go standard library: `unicode.IsSpace` restricted to
ASCII bytes (space, tab, newline, vertical tab, form feed, carriage
return); header values are ASCII in this system. -/
def isSpaceByte (b : Nat) : Bool :=
  b = 32 || b = 9 || b = 10 || b = 11 || b = 12 || b = 13

/-- Split a byte list at every byte satisfying the separator test,
keeping empty pieces (helper for `fields`). -/
def splitOnPred (p : Nat → Bool) : Bytes → List Bytes
  | [] => [[]]
  | c :: cs =>
    if p c then [] :: splitOnPred p cs
    else
      match splitOnPred p cs with
      | [] => [[c]]
      | f :: fs => (c :: f) :: fs

/-- Modelled from the Go standard library: `strings.Fields` splits around
runs of whitespace and never returns empty fields. -/
def fields (s : Bytes) : List Bytes :=
  (splitOnPred isSpaceByte s).filter (fun f => f ≠ [])

/-- Modelled from the Go standard library: `http.Header.Get` returns the
header value, or the empty string when the header is absent. -/
def headerGet (h : Option Bytes) : Bytes := h.getD []

/-- `auth.GetBearerToken` (src/internal/auth/passwords_test.go, third
document): errors when the `Authorization` value is empty, otherwise
evaluates `strings.Fields(authHeader)[1]`, which panics when fewer than
two fields are present. -/
def GetBearerToken (auth : Option Bytes) : GoResult Bytes :=
  let authHeader := headerGet auth
  if authHeader = [] then .err
  else
    match fields authHeader with
    | _ :: t :: _ => .ok t
    | _ => .panics

/-- `auth.GetAPIKey` (src/unnamed/part_000): errors when the
`Authorization` value is empty or splits into no fields, otherwise
returns the last whitespace-separated field. -/
def GetAPIKey (auth : Option Bytes) : GoResult Bytes :=
  let headerValue := headerGet auth
  if headerValue = [] then .err
  else
    match fields headerValue with
    | [] => .err
    | f :: fs => .ok ((f :: fs).getLast (List.cons_ne_nil f fs))

/-- Lowercase hexadecimal digit byte for a value below 16
(`0`-`9` then `a`-`f`). -/
def hexDigitLower (n : Nat) : Nat := if n < 10 then 48 + n else 87 + n

/-- Modelled from the Go standard library: `hex.EncodeToString`, two
lowercase hex digits per byte. -/
def hexEncode (bs : Bytes) : Bytes :=
  bs.flatMap (fun b => [hexDigitLower (b / 16), hexDigitLower (b % 16)])

/-- `auth.MakeRefreshToken` (src/internal/auth/passwords_test.go, second
document): hex-encodes 32 bytes drawn from `crypto/rand`; the draw
(which may fail) is passed explicitly. -/
def MakeRefreshToken (draw : Except String Bytes) : Except String Bytes :=
  match draw with
  | .error e => .error e
  | .ok data => .ok (hexEncode data)

/-! ### SHA-256 and HMAC

Modelled from the Go standard library `crypto/sha256` and `crypto/hmac`
(external dependencies of the JWT library), bit for bit, over byte lists. -/

/-- Truncate to a 32-bit word. -/
def w32 (n : Nat) : Nat := n % 4294967296

/-- Right-rotate a 32-bit word by `k` bits (valid for `n < 2^32`, `k ≤ 32`). -/
def rotr32 (n k : Nat) : Nat := n / 2 ^ k + n % 2 ^ k * 2 ^ (32 - k)

/-- Bitwise complement of a 32-bit word. -/
def not32 (n : Nat) : Nat := 4294967295 - n

/-- SHA-256 `Ch` function. -/
def shaCh (x y z : Nat) : Nat := (x &&& y) ^^^ (not32 x &&& z)

/-- SHA-256 `Maj` function. -/
def shaMaj (x y z : Nat) : Nat := (x &&& y) ^^^ (x &&& z) ^^^ (y &&& z)

/-- SHA-256 `Σ0`. -/
def bigSigma0 (x : Nat) : Nat := rotr32 x 2 ^^^ rotr32 x 13 ^^^ rotr32 x 22

/-- SHA-256 `Σ1`. -/
def bigSigma1 (x : Nat) : Nat := rotr32 x 6 ^^^ rotr32 x 11 ^^^ rotr32 x 25

/-- SHA-256 `σ0`. -/
def smallSigma0 (x : Nat) : Nat := rotr32 x 7 ^^^ rotr32 x 18 ^^^ x / 8

/-- SHA-256 `σ1`. -/
def smallSigma1 (x : Nat) : Nat := rotr32 x 17 ^^^ rotr32 x 19 ^^^ x / 1024

/-- The SHA-256 round constants. -/
def K256 : List Nat := [
  1116352408, 1899447441, 3049323471, 3921009573, 961987163, 1508970993, 2453635748, 2870763221,
  3624381080, 310598401, 607225278, 1426881987, 1925078388, 2162078206, 2614888103, 3248222580,
  3835390401, 4022224774, 264347078, 604807628, 770255983, 1249150122, 1555081692, 1996064986,
  2554220882, 2821834349, 2952996808, 3210313671, 3336571891, 3584528711, 113926993, 338241895,
  666307205, 773529912, 1294757372, 1396182291, 1695183700, 1986661051, 2177026350, 2456956037,
  2730485921, 2820302411, 3259730800, 3345764771, 3516065817, 3600352804, 4094571909, 275423344,
  430227734, 506948616, 659060556, 883997877, 958139571, 1322822218, 1537002063, 1747873779,
  1955562222, 2024104815, 2227730452, 2361852424, 2428436474, 2756734187, 3204031479, 3329325298]

/-- The SHA-256 initial hash state. -/
def shaH0 : List Nat := [
  1779033703, 3144134277, 1013904242, 2773480762, 1359893119, 2600822924, 528734635, 1541459225]

/-- Big-endian 8-byte encoding of a natural number. -/
def be64 (n : Nat) : Bytes := [
  n / 72057594037927936 % 256, n / 281474976710656 % 256,
  n / 1099511627776 % 256, n / 4294967296 % 256,
  n / 16777216 % 256, n / 65536 % 256, n / 256 % 256, n % 256]

/-- Big-endian 4-byte encoding of a 32-bit word. -/
def be32 (n : Nat) : Bytes := [n / 16777216 % 256, n / 65536 % 256, n / 256 % 256, n % 256]

/-- SHA-256 message padding: a `0x80` byte, zero bytes to 56 mod 64, then
the bit length as a big-endian 64-bit integer. -/
def sha256pad (msg : Bytes) : Bytes :=
  msg ++ [128] ++ List.replicate ((119 - msg.length % 64) % 64) 0
    ++ be64 (8 * msg.length)

/-- Group bytes into big-endian 32-bit words. -/
def bytesToWords : Bytes → List Nat
  | a :: b :: c :: d :: rest =>
    (a * 16777216 + b * 65536 + c * 256 + d) :: bytesToWords rest
  | _ => []

/-- Group a word list into 16-word blocks (fuel-driven helper). -/
def toBlocksAux : Nat → List Nat → List (List Nat)
  | 0, _ => []
  | _, [] => []
  | fuel + 1, ws => ws.take 16 :: toBlocksAux fuel (ws.drop 16)

/-- Group a word list into 16-word blocks. -/
def toBlocks (ws : List Nat) : List (List Nat) := toBlocksAux ws.length ws

/-- Word at index `i`, defaulting to 0. -/
def wAt (l : List Nat) (i : Nat) : Nat := l.getD i 0

/-- Extend the 16 block words by `n` further schedule words. -/
def extendSchedule : Nat → List Nat → List Nat
  | 0, ws => ws
  | n + 1, ws =>
    extendSchedule n (ws ++ [w32 (smallSigma1 (wAt ws (ws.length - 2)) +
      wAt ws (ws.length - 7) + smallSigma0 (wAt ws (ws.length - 15)) +
      wAt ws (ws.length - 16))])

/-- The 64-word SHA-256 message schedule of a block. -/
def schedule (block : List Nat) : List Nat := extendSchedule 48 block

/-- One SHA-256 round on the 8-word working state. -/
def roundStep (st : List Nat) (wk : Nat × Nat) : List Nat :=
  match st with
  | [a, b, c, d, e, f, g, h] =>
    let t1 := w32 (h + bigSigma1 e + shaCh e f g + wk.2 + wk.1)
    let t2 := w32 (bigSigma0 a + shaMaj a b c)
    [w32 (t1 + t2), a, b, c, w32 (d + t1), e, f, g]
  | st => st

/-- SHA-256 compression of one block into the hash state. -/
def compress (st : List Nat) (block : List Nat) : List Nat :=
  let ws := schedule block
  let st2 := (ws.zip K256).foldl roundStep st
  (st.zip st2).map (fun p => w32 (p.1 + p.2))

/-- SHA-256 of a byte list. -/
def sha256 (msg : Bytes) : Bytes :=
  ((toBlocks (bytesToWords (sha256pad msg))).foldl compress shaH0).flatMap be32

/-- HMAC-SHA256 (`crypto/hmac`): keys longer than the 64-byte block are
hashed first; the key is then zero-padded to the block size. -/
def hmacSha256 (key msg : Bytes) : Bytes :=
  let k0 := if 64 < key.length then sha256 key else key
  let kpad := k0 ++ List.replicate (64 - k0.length) 0
  sha256 (kpad.map (fun b => b ^^^ 92) ++ sha256 (kpad.map (fun b => b ^^^ 54) ++ msg))

/-! ### base64url (Go `encoding/base64` `RawURLEncoding`)

Modelled from the Go standard library. Decoding is the library default
used by golang-jwt/jwt/v5: unpadded URL alphabet, NOT strict, so the
unused trailing bits of a final partial group are discarded without
being checked. -/

/-- The base64url alphabet character for a 6-bit value. -/
def b64Char (v : Nat) : Nat :=
  if v < 26 then 65 + v
  else if v < 52 then 97 + (v - 26)
  else if v < 62 then 48 + (v - 52)
  else if v = 62 then 45 else 95

/-- The 6-bit value of a base64url alphabet character. -/
def b64Val (c : Nat) : Option Nat :=
  if 65 ≤ c ∧ c ≤ 90 then some (c - 65)
  else if 97 ≤ c ∧ c ≤ 122 then some (c - 97 + 26)
  else if 48 ≤ c ∧ c ≤ 57 then some (c - 48 + 52)
  else if c = 45 then some 62
  else if c = 95 then some 63
  else none

/-- base64url encoding without padding (`RawURLEncoding.EncodeToString`). -/
def b64encode : Bytes → Bytes
  | b1 :: b2 :: b3 :: rest =>
    b64Char (b1 / 4) :: b64Char (b1 % 4 * 16 + b2 / 16) ::
      b64Char (b2 % 16 * 4 + b3 / 64) :: b64Char (b3 % 64) :: b64encode rest
  | [b1, b2] => [b64Char (b1 / 4), b64Char (b1 % 4 * 16 + b2 / 16), b64Char (b2 % 16 * 4)]
  | [b1] => [b64Char (b1 / 4), b64Char (b1 % 4 * 16)]
  | [] => []

/-- base64url decoding without padding (`RawURLEncoding.DecodeString`,
non-strict: trailing padding bits of a final partial group are
discarded unchecked). -/
def b64decode : Bytes → Option Bytes
  | c1 :: c2 :: c3 :: c4 :: rest => do
    let v1 ← b64Val c1
    let v2 ← b64Val c2
    let v3 ← b64Val c3
    let v4 ← b64Val c4
    let bs ← b64decode rest
    pure ((v1 * 4 + v2 / 16) :: (v2 % 16 * 16 + v3 / 4) :: (v3 % 4 * 64 + v4) :: bs)
  | [c1, c2, c3] => do
    let v1 ← b64Val c1
    let v2 ← b64Val c2
    let v3 ← b64Val c3
    pure [v1 * 4 + v2 / 16, v2 % 16 * 16 + v3 / 4]
  | [c1, c2] => do
    let v1 ← b64Val c1
    let v2 ← b64Val c2
    pure [v1 * 4 + v2 / 16]
  | [_] => none
  | [] => some []

/-! ### Decimal integers, JSON claims, UUIDs -/

/-- Big-endian decimal digit bytes of a positive number, fuel-driven
(`fuel ≥ n` suffices). -/
def natDecAux : Nat → Nat → Bytes
  | 0, _ => []
  | _, 0 => []
  | fuel + 1, n => natDecAux fuel (n / 10) ++ [48 + n % 10]

/-- Decimal digit bytes of a natural number. -/
def natDec (n : Nat) : Bytes :=
  if n = 0 then [48] else natDecAux n n

/-- Decimal byte encoding of an integer, as `encoding/json` marshals an
`int64`-valued `NumericDate` (second precision). -/
def intDec (i : Int) : Bytes :=
  if i < 0 then 45 :: natDec (-i).toNat else natDec i.toNat

/-- Is this byte an ASCII decimal digit? -/
def isDigit (c : Nat) : Bool := decide (48 ≤ c ∧ c ≤ 57)

/-- Split off the leading run of decimal digits. -/
def takeDigits : Bytes → Bytes × Bytes
  | [] => ([], [])
  | c :: cs =>
    if isDigit c then
      let p := takeDigits cs
      (c :: p.1, p.2)
    else ([], c :: cs)

/-- Value of a big-endian decimal digit run. -/
def decVal (ds : Bytes) : Nat := ds.foldl (fun acc c => acc * 10 + (c - 48)) 0

/-- Read a (possibly negative) decimal integer from the front of a byte
list, greedily, as a JSON number parser does. -/
def readInt (s : Bytes) : Option (Int × Bytes) :=
  match s with
  | [] => none
  | c :: cs =>
    if c = 45 then
      match takeDigits cs with
      | ([], _) => none
      | (ds, r) => some (-(decVal ds : Int), r)
    else
      match takeDigits (c :: cs) with
      | ([], _) => none
      | (ds, r) => some ((decVal ds : Int), r)

/-- Drop an exact byte pattern from the front, or fail. -/
def dropExact : Bytes → Bytes → Option Bytes
  | [], s => some s
  | _ :: _, [] => none
  | p :: ps, c :: cs => if c = p then dropExact ps cs else none

/-- Read bytes up to (and consuming) the next double-quote byte. -/
def readUntilQuote : Bytes → Option (Bytes × Bytes)
  | [] => none
  | c :: cs =>
    if c = 34 then some ([], cs)
    else
      match readUntilQuote cs with
      | none => none
      | some (s, r) => some (c :: s, r)

/-- Modelled from golang-jwt/jwt/v5 and `encoding/json`: the JSON
serialization of `jwt.RegisteredClaims` as `MakeJWT` populates it
(issuer, subject, expires-at, issued-at, in struct field order; the
empty audience, not-before and id fields are omitted). `123` and `125`
are the brace bytes. -/
def claimsJson (iss sub : Bytes) (e iat : Int) : Bytes :=
  [123] ++ strBytes "\"iss\":\"" ++ iss ++ [34] ++ strBytes ",\"sub\":\"" ++ sub ++ [34]
    ++ strBytes ",\"exp\":" ++ intDec e ++ strBytes ",\"iat\":" ++ intDec iat ++ [125]

/-- Modelled from golang-jwt/jwt/v5: the JSON serialization of the
HS256 token header (map keys marshal in sorted order). -/
def headerJson : Bytes :=
  [123] ++ strBytes "\"alg\":\"HS256\",\"typ\":\"JWT\"" ++ [125]

/-- Modelled from `encoding/json` unmarshalling of `jwt.RegisteredClaims`:
a parser for the canonical serialization this system itself produces
(the only shape its tokens carry); other JSON layouts are rejected as
malformed. Returns issuer, subject, expires-at and issued-at. -/
def parseClaims (s : Bytes) : Option (Bytes × Bytes × Int × Int) := do
  let s ← dropExact ([123] ++ strBytes "\"iss\":\"") s
  let (iss, s) ← readUntilQuote s
  let s ← dropExact (strBytes ",\"sub\":\"") s
  let (sub, s) ← readUntilQuote s
  let s ← dropExact (strBytes ",\"exp\":") s
  let (e, s) ← readInt s
  let s ← dropExact (strBytes ",\"iat\":") s
  let (iat, s) ← readInt s
  let s ← dropExact [125] s
  if s = [] then pure (iss, sub, e, iat) else none

/-- Modelled from golang-jwt/jwt/v5 header handling, restricted to the
canonical HS256 header this system mints: any other header is rejected
as malformed. -/
def parseHeaderAlg (h : Bytes) : Option Bytes :=
  if h = headerJson then some (strBytes "HS256") else none

/-- Split a byte list at every occurrence of a byte, keeping empty pieces
(Go `strings.Split`). -/
def splitOnByte (b : Nat) (s : Bytes) : List Bytes :=
  splitOnPred (fun c => c = b) s

/-- Case-insensitive hexadecimal digit value. -/
def hexVal (c : Nat) : Option Nat :=
  if 48 ≤ c ∧ c ≤ 57 then some (c - 48)
  else if 97 ≤ c ∧ c ≤ 102 then some (c - 97 + 10)
  else if 65 ≤ c ∧ c ≤ 70 then some (c - 65 + 10)
  else none

/-- Decode pairs of hex digits into bytes. -/
def hexDecode : Bytes → Option Bytes
  | [] => some []
  | [_] => none
  | c1 :: c2 :: rest => do
    let h ← hexVal c1
    let l ← hexVal c2
    let bs ← hexDecode rest
    pure ((h * 16 + l) :: bs)

/-- Modelled from github.com/google/uuid: `UUID.String()`, the canonical
lowercase 8-4-4-4-12 dashed hex form of the 16 identifier bytes
(`45` is the dash byte). -/
def uuidString (u : Bytes) : Bytes :=
  hexEncode (u.take 4) ++ [45] ++ hexEncode ((u.drop 4).take 2) ++ [45]
    ++ hexEncode ((u.drop 6).take 2) ++ [45] ++ hexEncode ((u.drop 8).take 2) ++ [45]
    ++ hexEncode (u.drop 10)

/-- Modelled from github.com/google/uuid: `uuid.Parse` on the canonical
36-character dashed form (the only form this system produces; the
other accepted input forms are irrelevant here). -/
def uuidParse (s : Bytes) : Option Bytes :=
  match splitOnByte 45 s with
  | [g1, g2, g3, g4, g5] =>
    if g1.length = 8 ∧ g2.length = 4 ∧ g3.length = 4 ∧ g4.length = 4 ∧ g5.length = 12 then do
      let b1 ← hexDecode g1
      let b2 ← hexDecode g2
      let b3 ← hexDecode g3
      let b4 ← hexDecode g4
      let b5 ← hexDecode g5
      pure (b1 ++ b2 ++ b3 ++ b4 ++ b5)
    else none
  | _ => none

/-! ### MakeJWT and ValidateJWT -/

/-- The error classes `ValidateJWT` reports, mirroring golang-jwt/jwt/v5:
malformed token, invalid signature, expired token, or a subject that is
not a well-formed UUID. -/
inductive JwtError where
  | malformed
  | signatureInvalid
  | expired
  | subjectInvalid
deriving DecidableEq, Repr

/-- `auth.MakeJWT` (src/internal/auth/passwords_test.go, third document):
claims with issuer `chirpy`, issued-at `now`, expires-at `now + expiresIn`
and subject `userID.String()`, signed with HMAC-SHA256 over the two
base64url segments. The current time (seconds) is passed explicitly; the
Go error path is unreachable for HMAC signing, so the result is total.
`46` is the dot byte. -/
def MakeJWT (userID tokenSecret : Bytes) (expiresIn now : Int) : Bytes :=
  let claims := claimsJson (strBytes "chirpy") (uuidString userID) (now + expiresIn) now
  let signingInput := b64encode headerJson ++ [46] ++ b64encode claims
  signingInput ++ [46] ++ b64encode (hmacSha256 tokenSecret signingInput)

/-- `auth.ValidateJWT` (src/internal/auth/passwords_test.go, third
document), with the golang-jwt/jwt/v5 pipeline inlined: split into three
dot-separated segments, base64url-decode each, parse header and claims,
verify the HMAC-SHA256 signature over the signing input, reject when the
verification time is not before expires-at (`jwt/v5` checks
`now.Before(exp)`), then parse the subject as a UUID. -/
def ValidateJWT (tokenString tokenSecret : Bytes) (now : Int) : Except JwtError Bytes :=
  match splitOnByte 46 tokenString with
  | [h, p, s] =>
    match b64decode h, b64decode p, b64decode s with
    | some hb, some pb, some sigBytes =>
      match parseHeaderAlg hb, parseClaims pb with
      | some _, some c =>
        if hmacSha256 tokenSecret (h ++ [46] ++ p) = sigBytes then
          if now < c.2.2.1 then
            match uuidParse c.2.1 with
            | some uid => .ok uid
            | none => .error .subjectInvalid
          else .error .expired
        else .error .signatureInvalid
      | _, _ => .error .malformed
    | _, _, _ => .error .malformed
  | _ => .error .malformed

/-- Observer used only in theorem statements: the decoded header bytes,
parsed claims and decoded signature bytes of a serialized token. -/
def parseJwt (tok : Bytes) : Option (Bytes × (Bytes × Bytes × Int × Int) × Bytes) :=
  match splitOnByte 46 tok with
  | [h, p, s] => do
    let hb ← b64decode h
    let pb ← b64decode p
    let sig ← b64decode s
    let c ← parseClaims pb
    pure (hb, c, sig)
  | _ => none

end auth

/-! ### Request handlers (src/handler_test.go, src/unnamed/part_004) -/

/-- The fields of a stored refresh-token row that `refreshTokenHandler`
reads (src/sql and the generated `database.RefreshToken`): the token
string, the owning user id, the expiry instant and the nullable
revocation instant (`RevokedAt.Valid` in Go is `isSome` here). -/
structure RefreshTokenRow where
  token : Bytes
  userID : Bytes
  expiresAt : Int
  revokedAt : Option Int

/-- Outcome of the refresh endpoint: panic (from `GetBearerToken`),
an error response with its status and message, or 200 with a freshly
minted JWT. -/
inductive RefreshResult where
  | panics
  | errResp (status : Nat) (msg : String)
  | ok (token : Bytes)

/-- True exactly when the handler issued a new JWT. -/
def RefreshResult.issued : RefreshResult → Bool
  | .ok _ => true
  | _ => false

/-- `refreshTokenHandler` (src/handler_test.go, src/unnamed/part_004):
extracts the bearer token, looks the row up (the store is passed as a
function), responds 401 if the lookup fails, if `ExpiresAt.Before(now)`,
or if `RevokedAt` is set, and otherwise issues a one-hour JWT for the
owning user. The error branch of `MakeJWT` is unreachable. -/
def refreshTokenHandler (authHeader : Option Bytes)
    (lookup : Bytes → Except String RefreshTokenRow)
    (jwtSecret : Bytes) (now : Int) : RefreshResult :=
  match auth.GetBearerToken authHeader with
  | .panics => .panics
  | .err => .errResp 401 "Unauthorized"
  | .ok token =>
    match lookup token with
    | .error _ => .errResp 401 "Invalid refresh token"
    | .ok dbToken =>
      if dbToken.expiresAt < now then .errResp 401 "Refresh token expired"
      else if dbToken.revokedAt.isSome then .errResp 401 "Refresh token revoked"
      else .ok (auth.MakeJWT dbToken.userID jwtSecret 3600 now)

/-- `replaceProfane` (src/unnamed/part_004): replaces each profane word
and its lowercase form with four asterisks. -/
def replaceProfane (sentence : String) : String :=
  ["Kerfuffle", "Sharbert", "Fornax"].foldl
    (fun s (word : String) =>
      let lowerWord := word.toLower
      if s.containsSubstr word || s.containsSubstr lowerWord then
        (s.replace word "****").replace lowerWord "****"
      else s) sentence

/-- Outcome of the chirp-creation endpoint: panic (from
`GetBearerToken`), or a response with status, optional error message and
whether the store call `CreateChirp` was made. -/
inductive ChirpResult where
  | panics
  | resp (status : Nat) (errMsg : Option String) (createCalled : Bool)
deriving DecidableEq

/-- `createChirpHandler` (src/unnamed/part_004 and src/handler_test.go):
decodes the body (the decode outcome is passed as `Option String`, `none`
for a decode failure), extracts and validates the bearer JWT, rejects
bodies longer than 140 bytes (`len` in Go counts bytes of the string),
and otherwise stores the profanity-filtered chirp for the authenticated
user. -/
def createChirpHandler (body : Option String) (authHeader : Option Bytes)
    (jwtSecret : Bytes) (now : Int)
    (createChirp : String → Bytes → Except String Unit) : ChirpResult :=
  match body with
  | none => .resp 500 (some "Invalid request body") false
  | some chirp =>
    match auth.GetBearerToken authHeader with
    | .panics => .panics
    | .err => .resp 401 (some "Unauthorized") false
    | .ok token =>
      match auth.ValidateJWT token jwtSecret now with
      | .error _ => .resp 401 (some "Invalid token") false
      | .ok userID =>
        if 140 < chirp.utf8ByteSize then .resp 400 (some "Chirp is too long") false
        else
          match createChirp (replaceProfane chirp) userID with
          | .error _ => .resp 500 (some "Failed to create chirp") true
          | .ok _ => .resp 201 none true

namespace auth

/-- Tag under which the modeled password hash stores its payload. -/
def bcryptTag : Bytes := strBytes "$2a$10$"

/-- Modelled from the spec: the implementation of `HashPassword` is not
under src/ (only its tests and callers are). Per the spec it "produces a
salted one-way hash" and "fails only on underlying entropy/computation
failure". We model the hash as a tagged encoding that verification can
recompute; the salt and the one-way hardness are abstracted away, and the
entropy failure cannot occur in the model. -/
def HashPassword (p : Bytes) : Except String Bytes :=
  .ok (bcryptTag ++ p)

/-- Modelled from the spec: the implementation of `CheckPasswordHash` is
not under src/. Per the spec, `Verify(hash, plaintext)` "recomputes and
compares", returning an error (not a boolean) on mismatch. -/
def CheckPasswordHash (hash p : Bytes) : Except String Unit :=
  if hash = bcryptTag ++ p then .ok ()
  else .error "crypto mismatch between hash and password"

end auth

/-- The concrete token `MakeJWT` mints for user
`12345678-9abc-def0-0102-030405060708` with secret `testsecret`, a
one-hour TTL, at unix time 1700000000 (the equality is proved in the C5
evidence theorem). Its final byte is `Q` (81), whose low two base64 bits
are padding. -/
def sampleToken : Bytes := [
  101, 121, 74, 104, 98, 71, 99, 105, 79, 105, 74, 73, 85, 122, 73, 49, 78, 105,
  73, 115, 73, 110, 82, 53, 99, 67, 73, 54, 73, 107, 112, 88, 86, 67, 74, 57,
  46, 101, 121, 74, 112, 99, 51, 77, 105, 79, 105, 74, 106, 97, 71, 108, 121, 99,
  72, 107, 105, 76, 67, 74, 122, 100, 87, 73, 105, 79, 105, 73, 120, 77, 106, 77,
  48, 78, 84, 89, 51, 79, 67, 48, 53, 89, 87, 74, 106, 76, 87, 82, 108, 90,
  106, 65, 116, 77, 68, 69, 119, 77, 105, 48, 119, 77, 122, 65, 48, 77, 68, 85,
  119, 78, 106, 65, 51, 77, 68, 103, 105, 76, 67, 74, 108, 101, 72, 65, 105, 79,
  106, 69, 51, 77, 68, 65, 119, 77, 68, 77, 50, 77, 68, 65, 115, 73, 109, 108,
  104, 100, 67, 73, 54, 77, 84, 99, 119, 77, 68, 65, 119, 77, 68, 65, 119, 77,
  72, 48, 46, 113, 84, 76, 65, 57, 56, 67, 118, 66, 76, 86, 120, 80, 86, 74,
  121, 56, 97, 71, 75, 81, 45, 110, 106, 104, 89, 55, 117, 80, 104, 71, 55, 103,
  101, 88, 66, 119, 103, 95, 65, 101, 122, 81]


-- Sanity checks on the extractor models.
example : auth.fields (strBytes "Bearer abc123") =
    [strBytes "Bearer", strBytes "abc123"] := by decide
example : auth.GetBearerToken (some (strBytes "Bearer testtoken123")) =
    .ok (strBytes "testtoken123") := by decide
example : auth.GetBearerToken none = .err := by decide
example : auth.GetBearerToken (some (strBytes "Bearer")) = .panics := by decide
example : auth.GetBearerToken (some (strBytes "   ")) = .panics := by decide
example : auth.GetAPIKey (some (strBytes "ApiKey xyz")) =
    .ok (strBytes "xyz") := by decide
example : auth.GetAPIKey (some (strBytes "  ")) = .err := by decide
example : auth.GetAPIKey none = .err := by decide
example : auth.hexEncode [0, 255, 16] = strBytes "00ff10" := by decide

namespace auth

lemma splitOnPred_ne_nil (p : Nat → Bool) (s : Bytes) : splitOnPred p s ≠ [] := by
  induction s with
  | nil => simp [splitOnPred]
  | cons c cs ih =>
    simp only [splitOnPred]
    split
    · simp
    · cases h : splitOnPred p cs with
      | nil => simp
      | cons f fs => simp

/-- A header value has no whitespace-separated fields exactly when every
byte of it is whitespace (in particular when it is empty). -/
lemma fields_eq_nil_iff (s : Bytes) :
    fields s = [] ↔ ∀ b ∈ s, isSpaceByte b = true := by
  induction s with
  | nil => simp [fields, splitOnPred]
  | cons c cs ih =>
    by_cases hc : isSpaceByte c = true
    · have : fields (c :: cs) = fields cs := by
        simp [fields, splitOnPred, hc]
      simp [this, ih, hc]
    · have : fields (c :: cs) ≠ [] := by
        simp only [fields, splitOnPred, hc, if_neg]
        cases h : splitOnPred isSpaceByte cs with
        | nil => exact absurd h (splitOnPred_ne_nil _ _)
        | cons f fs => simp [List.filter]
      simp only [this, false_iff]
      intro hall
      exact hc (hall c (by simp))

lemma hexDigitLower_inj {m n : Nat} (hm : m < 16) (hn : n < 16)
    (h : hexDigitLower m = hexDigitLower n) : m = n := by
  unfold hexDigitLower at h
  split_ifs at h <;> omega

lemma hexEncode_injOn {d₁ d₂ : Bytes} (h₁ : ∀ b ∈ d₁, b < 256)
    (h₂ : ∀ b ∈ d₂, b < 256) (h : hexEncode d₁ = hexEncode d₂) : d₁ = d₂ := by
  induction d₁ generalizing d₂ with
  | nil =>
    cases d₂ with
    | nil => rfl
    | cons b t => simp [hexEncode] at h
  | cons b t ih =>
    cases d₂ with
    | nil => simp [hexEncode] at h
    | cons b' t' =>
      simp only [hexEncode, List.flatMap_cons, List.cons_append, List.nil_append,
        List.cons.injEq] at h
      obtain ⟨hhi, hlo, htail⟩ := h
      have hb : b < 256 := h₁ b (by simp)
      have hb' : b' < 256 := h₂ b' (by simp)
      have e₁ : b / 16 = b' / 16 :=
        hexDigitLower_inj (by omega) (by omega) hhi
      have e₂ : b % 16 = b' % 16 :=
        hexDigitLower_inj (by omega) (by omega) hlo
      have : b = b' := by omega
      subst this
      have : t = t' := ih (fun x hx => h₁ x (by simp [hx]))
        (fun x hx => h₂ x (by simp [hx])) (by simpa [hexEncode] using htail)
      simp [this]

lemma hexEncode_length (d : Bytes) : (hexEncode d).length = 2 * d.length := by
  induction d with
  | nil => simp [hexEncode]
  | cons b t ih =>
    simp only [hexEncode, List.flatMap_cons] at *
    simp [ih]
    omega

end auth

/-- C2: `GetBearerToken` errors exactly when the `Authorization` header is
absent or empty; when the value splits into two or more whitespace-separated
fields it returns the second field; on every non-empty value with fewer than
two fields it performs an out-of-range index, so it neither returns a token
nor an error (modeled as the `panics` outcome). -/
theorem getBearerToken_spec (a : Option Bytes) :
    ((auth.GetBearerToken a).isErr = true ↔ a = none ∨ a = some []) ∧
    (∀ f₁ f₂ rest, auth.fields (auth.headerGet a) = f₁ :: f₂ :: rest →
      auth.GetBearerToken a = .ok f₂) ∧
    (auth.headerGet a ≠ [] → (auth.fields (auth.headerGet a)).length < 2 →
      auth.GetBearerToken a = .panics) := by
  rcases a with _ | v
  · refine ⟨by simp [auth.GetBearerToken, auth.headerGet, auth.GoResult.isErr], ?_, ?_⟩
    · intro f₁ f₂ rest h
      simp [auth.headerGet, auth.fields, auth.splitOnPred] at h
    · intro h
      simp [auth.headerGet] at h
  · by_cases hv : v = []
    · subst hv
      refine ⟨by simp [auth.GetBearerToken, auth.headerGet, auth.GoResult.isErr], ?_, ?_⟩
      · intro f₁ f₂ rest h
        simp [auth.headerGet, auth.fields, auth.splitOnPred] at h
      · intro h
        simp [auth.headerGet] at h
    · have hget : auth.headerGet (some v) = v := rfl
      refine ⟨?_, ?_, ?_⟩
      · rw [show auth.GetBearerToken (some v) =
          (match auth.fields v with
            | _ :: t :: _ => auth.GoResult.ok t
            | _ => auth.GoResult.panics) by
            simp [auth.GetBearerToken, auth.headerGet, hv]]
        constructor
        · intro h
          exfalso
          rcases hf : auth.fields v with _ | ⟨f₁, _ | ⟨f₂, rest⟩⟩ <;>
            simp [hf, auth.GoResult.isErr] at h
        · intro h
          rcases h with h | h <;> simp_all
      · intro f₁ f₂ rest h
        rw [hget] at h
        simp [auth.GetBearerToken, auth.headerGet, hv, h]
      · intro _ hlen
        rw [hget] at hlen
        rcases hf : auth.fields v with _ | ⟨f₁, _ | ⟨f₂, rest⟩⟩
        · simp [auth.GetBearerToken, auth.headerGet, hv, hf]
        · simp [auth.GetBearerToken, auth.headerGet, hv, hf]
        · rw [hf] at hlen
          simp at hlen
          omega

theorem getBearerToken_spec_witness :
    auth.GetBearerToken (some (strBytes "Bearer abc123")) =
      .ok (strBytes "abc123") :=
  (getBearerToken_spec (some (strBytes "Bearer abc123"))).2.1
    (strBytes "Bearer") (strBytes "abc123") [] (by decide)

/-- C9: `GetAPIKey` errors exactly when the `Authorization` header is absent
or all-whitespace (no fields after whitespace-splitting); otherwise it
returns the last whitespace-separated field. -/
theorem getAPIKey_spec (a : Option Bytes) :
    ((auth.GetAPIKey a).isErr = true ↔
      ∀ b ∈ auth.headerGet a, auth.isSpaceByte b = true) ∧
    (∀ f fs, auth.fields (auth.headerGet a) = f :: fs →
      auth.GetAPIKey a = .ok ((f :: fs).getLast (List.cons_ne_nil f fs))) := by
  rcases a with _ | v
  · refine ⟨by simp [auth.GetAPIKey, auth.headerGet, auth.GoResult.isErr], ?_⟩
    intro f fs h
    simp [auth.headerGet, auth.fields, auth.splitOnPred] at h
  · by_cases hv : v = []
    · subst hv
      refine ⟨by simp [auth.GetAPIKey, auth.headerGet, auth.GoResult.isErr], ?_⟩
      intro f fs h
      simp [auth.headerGet, auth.fields, auth.splitOnPred] at h
    · have hget : auth.headerGet (some v) = v := rfl
      constructor
      · rcases hf : auth.fields v with _ | ⟨f, fs⟩
        · have : auth.GetAPIKey (some v) = .err := by
            simp [auth.GetAPIKey, auth.headerGet, hv, hf]
          simp only [this, hget]
          simpa [auth.GoResult.isErr] using (auth.fields_eq_nil_iff v).mp hf
        · have : auth.GetAPIKey (some v) =
              .ok ((f :: fs).getLast (List.cons_ne_nil f fs)) := by
            simp [auth.GetAPIKey, auth.headerGet, hv, hf]
          simp only [this, hget, auth.GoResult.isErr]
          constructor
          · intro h
            exact absurd h (by simp)
          · intro hall
            have : auth.fields v = [] := (auth.fields_eq_nil_iff v).mpr hall
            rw [this] at hf
            exact absurd hf (by simp)
      · intro f fs h
        rw [hget] at h
        simp [auth.GetAPIKey, auth.headerGet, hv, h]

theorem getAPIKey_spec_witness :
    auth.GetAPIKey (some (strBytes "ApiKey xyz")) = .ok (strBytes "xyz") := by
  have := (getAPIKey_spec (some (strBytes "ApiKey xyz"))).2
    (strBytes "ApiKey") [strBytes "xyz"] (by decide)
  simpa using this

/-- C8: on a successful 32-byte draw, `MakeRefreshToken` returns exactly the
64-character hex encoding of the draw; hex encoding is injective on byte
lists, so different draws give different tokens; and the function errors
exactly when the random read fails. -/
theorem makeRefreshToken_spec :
    (∀ data : Bytes, data.length = 32 →
      auth.MakeRefreshToken (.ok data) = .ok (auth.hexEncode data) ∧
      (auth.hexEncode data).length = 64) ∧
    (∀ d₁ d₂ : Bytes, (∀ b ∈ d₁, b < 256) → (∀ b ∈ d₂, b < 256) →
      auth.hexEncode d₁ = auth.hexEncode d₂ → d₁ = d₂) ∧
    (∀ draw : Except String Bytes,
      (auth.MakeRefreshToken draw).isOk = draw.isOk) := by
  refine ⟨?_, ?_, ?_⟩
  · intro data hlen
    refine ⟨rfl, ?_⟩
    rw [auth.hexEncode_length, hlen]
  · intro d₁ d₂ h₁ h₂ h
    exact auth.hexEncode_injOn h₁ h₂ h
  · intro draw
    rcases draw with e | data <;> rfl

theorem makeRefreshToken_spec_witness :
    auth.MakeRefreshToken (.ok (List.range 32)) =
      .ok (auth.hexEncode (List.range 32)) ∧
    (auth.hexEncode (List.range 32)).length = 64 :=
  makeRefreshToken_spec.1 (List.range 32) (by decide)

/-- C7: verifying a freshly hashed password succeeds; verifying any other
password against that hash returns an error (the result is an error value,
not a boolean); and the hash is never equal to the plaintext. -/
theorem passwordHash_spec (p : Bytes) (h : Bytes)
    (hh : auth.HashPassword p = .ok h) :
    auth.CheckPasswordHash h p = .ok () ∧
    (∀ q, q ≠ p → auth.CheckPasswordHash h q =
      .error "crypto mismatch between hash and password") ∧
    h ≠ p := by
  have hdef : h = auth.bcryptTag ++ p := by
    simpa [auth.HashPassword] using hh.symm
  subst hdef
  refine ⟨by simp [auth.CheckPasswordHash], ?_, ?_⟩
  · intro q hq
    have : auth.bcryptTag ++ p ≠ auth.bcryptTag ++ q := by
      intro hcontra
      exact hq (List.append_cancel_left hcontra).symm
    simp [auth.CheckPasswordHash, this]
  · intro hcontra
    have := congrArg List.length hcontra
    simp [auth.bcryptTag, strBytes] at this
    omega

theorem passwordHash_spec_witness :
    auth.CheckPasswordHash (auth.bcryptTag ++ strBytes "testPassword123")
        (strBytes "testPassword123") = .ok () ∧
    auth.CheckPasswordHash (auth.bcryptTag ++ strBytes "testPassword123")
        (strBytes "wrongPassword") =
      .error "crypto mismatch between hash and password" := by
  have hmain := passwordHash_spec (strBytes "testPassword123")
    (auth.bcryptTag ++ strBytes "testPassword123") rfl
  exact ⟨hmain.1, hmain.2.1 (strBytes "wrongPassword") (by decide)⟩

namespace auth

lemma b64Val_b64Char : ∀ v < 64, b64Val (b64Char v) = some v := by decide

lemma b64Char_ne_dot (v : Nat) : b64Char v ≠ 46 := by
  unfold b64Char
  split_ifs <;> omega

lemma b64encode_ne_dot (bs : Bytes) : ∀ c ∈ b64encode bs, c ≠ 46 := by
  induction bs using b64encode.induct with
  | case1 b1 b2 b3 rest ih =>
    intro c hc
    simp only [b64encode, List.mem_cons] at hc
    rcases hc with h | h | h | h | h
    · exact h ▸ b64Char_ne_dot _
    · exact h ▸ b64Char_ne_dot _
    · exact h ▸ b64Char_ne_dot _
    · exact h ▸ b64Char_ne_dot _
    · exact ih c h
  | case2 b1 b2 =>
    intro c hc
    simp only [b64encode, List.mem_cons] at hc
    rcases hc with h | h | h | h <;> first
      | exact h ▸ b64Char_ne_dot _
      | simp at h
  | case3 b1 =>
    intro c hc
    simp only [b64encode, List.mem_cons] at hc
    rcases hc with h | h | h <;> first
      | exact h ▸ b64Char_ne_dot _
      | simp at h
  | case4 => intro c hc; simp [b64encode] at hc

lemma b64decode_b64encode (bs : Bytes) (hb : ∀ b ∈ bs, b < 256) :
    b64decode (b64encode bs) = some bs := by
  induction bs using b64encode.induct with
  | case1 b1 b2 b3 rest ih =>
    have h1 : b1 < 256 := hb b1 (by simp)
    have h2 : b2 < 256 := hb b2 (by simp)
    have h3 : b3 < 256 := hb b3 (by simp)
    have ihr := ih (fun b hmem => hb b (by simp [hmem]))
    have v1 : b64Val (b64Char (b1 / 4)) = some (b1 / 4) :=
      b64Val_b64Char _ (by omega)
    have v2 : b64Val (b64Char (b1 % 4 * 16 + b2 / 16)) = some (b1 % 4 * 16 + b2 / 16) :=
      b64Val_b64Char _ (by omega)
    have v3 : b64Val (b64Char (b2 % 16 * 4 + b3 / 64)) = some (b2 % 16 * 4 + b3 / 64) :=
      b64Val_b64Char _ (by omega)
    have v4 : b64Val (b64Char (b3 % 64)) = some (b3 % 64) :=
      b64Val_b64Char _ (by omega)
    simp only [b64encode, b64decode, v1, v2, v3, v4, Option.pure_def, Option.bind_eq_bind, Option.some_bind, ihr]
    simp only [Option.some.injEq, List.cons.injEq, and_true]
    omega
  | case2 b1 b2 =>
    have h1 : b1 < 256 := hb b1 (by simp)
    have h2 : b2 < 256 := hb b2 (by simp)
    have v1 : b64Val (b64Char (b1 / 4)) = some (b1 / 4) :=
      b64Val_b64Char _ (by omega)
    have v2 : b64Val (b64Char (b1 % 4 * 16 + b2 / 16)) = some (b1 % 4 * 16 + b2 / 16) :=
      b64Val_b64Char _ (by omega)
    have v3 : b64Val (b64Char (b2 % 16 * 4)) = some (b2 % 16 * 4) :=
      b64Val_b64Char _ (by omega)
    simp only [b64encode, b64decode, v1, v2, v3, Option.pure_def, Option.bind_eq_bind, Option.some_bind]
    simp only [Option.some.injEq, List.cons.injEq, and_true]
    omega
  | case3 b1 =>
    have h1 : b1 < 256 := hb b1 (by simp)
    have v1 : b64Val (b64Char (b1 / 4)) = some (b1 / 4) :=
      b64Val_b64Char _ (by omega)
    have v2 : b64Val (b64Char (b1 % 4 * 16)) = some (b1 % 4 * 16) :=
      b64Val_b64Char _ (by omega)
    simp only [b64encode, b64decode, v1, v2, Option.pure_def, Option.bind_eq_bind, Option.some_bind]
    simp only [Option.some.injEq, List.cons.injEq, and_true]
    omega
  | case4 => simp [b64encode, b64decode]

end auth

namespace auth

lemma splitOnPred_sepFree (p : Nat → Bool) (A : Bytes)
    (hA : ∀ c ∈ A, p c = false) : splitOnPred p A = [A] := by
  induction A with
  | nil => rfl
  | cons c cs ih =>
    have hc : p c = false := hA c (by simp)
    have h2 := ih (fun x hx => hA x (by simp [hx]))
    simp [splitOnPred, hc, h2]

lemma splitOnPred_append_sep (p : Nat → Bool) (A : Bytes) (d : Nat) (r : Bytes)
    (hA : ∀ c ∈ A, p c = false) (hd : p d = true) :
    splitOnPred p (A ++ d :: r) = A :: splitOnPred p r := by
  induction A with
  | nil => simp [splitOnPred, hd]
  | cons c cs ih =>
    have hc : p c = false := hA c (by simp)
    have h2 := ih (fun x hx => hA x (by simp [hx]))
    simp only [List.cons_append, splitOnPred, hc, Bool.false_eq_true, if_false,
      List.append_eq]
    rw [h2]

lemma natDecAux_zero (fuel : Nat) : natDecAux fuel 0 = [] := by
  cases fuel <;> rfl

lemma decVal_append_singleton (A : Bytes) (c : Nat) :
    decVal (A ++ [c]) = decVal A * 10 + (c - 48) := by
  simp [decVal, List.foldl_append]

lemma decVal_natDecAux (fuel : Nat) :
    ∀ n, n ≤ fuel → decVal (natDecAux fuel n) = n := by
  induction fuel with
  | zero =>
    intro n h
    have : n = 0 := by omega
    subst this
    rfl
  | succ f ih =>
    intro n h
    cases n with
    | zero => rfl
    | succ m =>
      show decVal (natDecAux f ((m + 1) / 10) ++ [48 + (m + 1) % 10]) = m + 1
      rw [decVal_append_singleton, ih _ (by omega)]
      omega

lemma natDecAux_digits (fuel : Nat) :
    ∀ n, ∀ c ∈ natDecAux fuel n, isDigit c = true := by
  induction fuel with
  | zero => intro n c hc; simp [natDecAux] at hc
  | succ f ih =>
    intro n c hc
    cases n with
    | zero => simp [natDecAux] at hc
    | succ m =>
      simp only [natDecAux, List.mem_append, List.mem_singleton] at hc
      rcases hc with h | h
      · exact ih _ c h
      · subst h
        simp [isDigit]
        omega

lemma natDec_digits (n : Nat) : ∀ c ∈ natDec n, isDigit c = true := by
  unfold natDec
  split
  · intro c hc
    simp at hc
    subst hc
    decide
  · exact natDecAux_digits n n

lemma natDec_ne_nil (n : Nat) : natDec n ≠ [] := by
  unfold natDec
  split
  · simp
  · cases n with
    | zero => simp_all
    | succ m =>
      show natDecAux m ((m + 1) / 10) ++ [48 + (m + 1) % 10] ≠ []
      simp

lemma decVal_natDec (n : Nat) : decVal (natDec n) = n := by
  unfold natDec
  split
  · simp_all [decVal]
  · exact decVal_natDecAux n n le_rfl

lemma takeDigits_append (ds : Bytes) (c₀ : Nat) (r : Bytes)
    (hds : ∀ c ∈ ds, isDigit c = true) (hc : isDigit c₀ = false) :
    takeDigits (ds ++ c₀ :: r) = (ds, c₀ :: r) := by
  induction ds with
  | nil => simp [takeDigits, hc]
  | cons c cs ih =>
    have h1 : isDigit c = true := hds c (by simp)
    have h2 := ih (fun x hx => hds x (by simp [hx]))
    simp [takeDigits, h1, h2]

lemma readInt_intDec (i : Int) (c₀ : Nat) (r : Bytes) (hc : isDigit c₀ = false) :
    readInt (intDec i ++ c₀ :: r) = some (i, c₀ :: r) := by
  by_cases hi : i < 0
  · obtain ⟨d, ds, hnd⟩ := List.exists_cons_of_ne_nil (natDec_ne_nil (-i).toNat)
    have hdig : ∀ c ∈ d :: ds, isDigit c = true := by
      rw [← hnd]; exact natDec_digits _
    simp only [intDec, if_pos hi, List.cons_append, readInt, if_pos rfl]
    rw [takeDigits_append _ _ _ (natDec_digits _) hc, hnd]
    have hval : decVal (d :: ds) = (-i).toNat := by
      rw [← hnd]; exact decVal_natDec _
    simp [hval]
    omega
  · obtain ⟨d, ds, hnd⟩ := List.exists_cons_of_ne_nil (natDec_ne_nil i.toNat)
    have hdig : ∀ c ∈ d :: ds, isDigit c = true := by
      rw [← hnd]; exact natDec_digits _
    have hd45 : ¬(d = 45) := by
      have := hdig d (by simp)
      simp [isDigit] at this
      omega
    have htd : takeDigits (intDec i ++ c₀ :: r) = (natDec i.toNat, c₀ :: r) := by
      simp only [intDec, if_neg hi]
      exact takeDigits_append _ _ _ (natDec_digits _) hc
    simp only [intDec, if_neg hi] at htd ⊢
    rw [hnd] at htd ⊢
    simp only [List.cons_append, readInt, if_neg hd45]
    rw [show d :: (ds ++ c₀ :: r) = (d :: ds) ++ c₀ :: r from rfl, htd]
    have hval : decVal (d :: ds) = i.toNat := by
      rw [← hnd]; exact decVal_natDec _
    simp [hval]
    omega

lemma dropExact_append (p r : Bytes) : dropExact p (p ++ r) = some r := by
  induction p with
  | nil => rfl
  | cons c cs ih => simp [dropExact, ih]

lemma readUntilQuote_append (s r : Bytes) (hs : ∀ c ∈ s, c ≠ 34) :
    readUntilQuote (s ++ 34 :: r) = some (s, r) := by
  induction s with
  | nil => simp [readUntilQuote]
  | cons c cs ih =>
    have hc : c ≠ 34 := hs c (by simp)
    have h2 := ih (fun x hx => hs x (by simp [hx]))
    simp [readUntilQuote, hc, h2]

lemma hexVal_hexDigitLower : ∀ v < 16, hexVal (hexDigitLower v) = some v := by
  decide

lemma hexDecode_hexEncode (bs : Bytes) (hb : ∀ b ∈ bs, b < 256) :
    hexDecode (hexEncode bs) = some bs := by
  induction bs with
  | nil => rfl
  | cons b t ih =>
    have hbb : b < 256 := hb b (by simp)
    have iht := ih (fun x hx => hb x (by simp [hx]))
    have v1 : hexVal (hexDigitLower (b / 16)) = some (b / 16) :=
      hexVal_hexDigitLower _ (by omega)
    have v2 : hexVal (hexDigitLower (b % 16)) = some (b % 16) :=
      hexVal_hexDigitLower _ (by omega)
    show hexDecode (hexDigitLower (b / 16) :: hexDigitLower (b % 16) :: hexEncode t) = _
    simp only [hexDecode, v1, v2, Option.pure_def, Option.bind_eq_bind,
      Option.some_bind, iht]
    simp only [Option.some.injEq, List.cons.injEq, and_true]
    omega

lemma hexEncode_char_range (bs : Bytes) (hb : ∀ b ∈ bs, b < 256) :
    ∀ c ∈ hexEncode bs, 48 ≤ c ∧ c ≤ 57 ∨ 97 ≤ c ∧ c ≤ 102 := by
  intro c hc
  simp only [hexEncode, List.mem_flatMap] at hc
  obtain ⟨b, hbmem, hcc⟩ := hc
  have hbb : b < 256 := hb b hbmem
  simp only [List.mem_cons, List.mem_singleton] at hcc
  rcases hcc with h | h | h
  · subst h; unfold hexDigitLower; split_ifs <;> omega
  · subst h; unfold hexDigitLower; split_ifs <;> omega
  · simp at h

end auth

namespace auth

lemma uuidParse_uuidString (u : Bytes) (hu : u.length = 16)
    (hb : ∀ b ∈ u, b < 256) : uuidParse (uuidString u) = some u := by
  have hb1 : ∀ b ∈ u.take 4, b < 256 := fun b h => hb b (List.take_subset _ _ h)
  have hb2 : ∀ b ∈ (u.drop 4).take 2, b < 256 :=
    fun b h => hb b (List.drop_subset _ _ (List.take_subset _ _ h))
  have hb3 : ∀ b ∈ (u.drop 6).take 2, b < 256 :=
    fun b h => hb b (List.drop_subset _ _ (List.take_subset _ _ h))
  have hb4 : ∀ b ∈ (u.drop 8).take 2, b < 256 :=
    fun b h => hb b (List.drop_subset _ _ (List.take_subset _ _ h))
  have hb5 : ∀ b ∈ u.drop 10, b < 256 := fun b h => hb b (List.drop_subset _ _ h)
  have hdash : ∀ (x : Bytes), (∀ b ∈ x, b < 256) →
      ∀ c ∈ hexEncode x, (decide (c = 45) : Bool) = false := by
    intro x hx c hc
    have := hexEncode_char_range x hx c hc
    simp only [decide_eq_false_iff_not]
    omega
  have hshape : uuidString u =
      hexEncode (u.take 4) ++ 45 :: (hexEncode ((u.drop 4).take 2) ++ 45 ::
        (hexEncode ((u.drop 6).take 2) ++ 45 :: (hexEncode ((u.drop 8).take 2) ++ 45 ::
          hexEncode (u.drop 10)))) := by
    simp [uuidString]
  have hsplit : splitOnByte 45 (uuidString u) =
      [hexEncode (u.take 4), hexEncode ((u.drop 4).take 2),
       hexEncode ((u.drop 6).take 2), hexEncode ((u.drop 8).take 2),
       hexEncode (u.drop 10)] := by
    rw [hshape]
    unfold splitOnByte
    rw [splitOnPred_append_sep _ _ _ _ (hdash _ hb1) (by simp),
        splitOnPred_append_sep _ _ _ _ (hdash _ hb2) (by simp),
        splitOnPred_append_sep _ _ _ _ (hdash _ hb3) (by simp),
        splitOnPred_append_sep _ _ _ _ (hdash _ hb4) (by simp),
        splitOnPred_sepFree _ _ (hdash _ hb5)]
  have l1 : (hexEncode (u.take 4)).length = 8 := by
    rw [hexEncode_length, List.length_take, hu]
    omega
  have l2 : (hexEncode ((u.drop 4).take 2)).length = 4 := by
    rw [hexEncode_length, List.length_take, List.length_drop, hu]
    omega
  have l3 : (hexEncode ((u.drop 6).take 2)).length = 4 := by
    rw [hexEncode_length, List.length_take, List.length_drop, hu]
    omega
  have l4 : (hexEncode ((u.drop 8).take 2)).length = 4 := by
    rw [hexEncode_length, List.length_take, List.length_drop, hu]
    omega
  have l5 : (hexEncode (u.drop 10)).length = 12 := by
    rw [hexEncode_length, List.length_drop, hu]
  unfold uuidParse
  rw [hsplit]
  show (if (hexEncode (u.take 4)).length = 8 ∧ (hexEncode ((u.drop 4).take 2)).length = 4 ∧
      (hexEncode ((u.drop 6).take 2)).length = 4 ∧ (hexEncode ((u.drop 8).take 2)).length = 4 ∧
      (hexEncode (u.drop 10)).length = 12 then do
        let b1 ← hexDecode (hexEncode (u.take 4))
        let b2 ← hexDecode (hexEncode ((u.drop 4).take 2))
        let b3 ← hexDecode (hexEncode ((u.drop 6).take 2))
        let b4 ← hexDecode (hexEncode ((u.drop 8).take 2))
        let b5 ← hexDecode (hexEncode (u.drop 10))
        pure (b1 ++ b2 ++ b3 ++ b4 ++ b5)
      else none) = some u
  rw [if_pos ⟨l1, l2, l3, l4, l5⟩]
  rw [hexDecode_hexEncode _ hb1, hexDecode_hexEncode _ hb2, hexDecode_hexEncode _ hb3,
      hexDecode_hexEncode _ hb4, hexDecode_hexEncode _ hb5]
  simp only [Option.pure_def, Option.bind_eq_bind, Option.some_bind, Option.some.injEq]
  have s4 : (u.drop 8).take 2 ++ u.drop 10 = u.drop 8 := by
    have h10 : (u.drop 8).drop 2 = u.drop 10 := by simp [List.drop_drop]
    rw [← h10, List.take_append_drop]
  have s3 : (u.drop 6).take 2 ++ u.drop 8 = u.drop 6 := by
    have h8 : (u.drop 6).drop 2 = u.drop 8 := by simp [List.drop_drop]
    rw [← h8, List.take_append_drop]
  have s2 : (u.drop 4).take 2 ++ u.drop 6 = u.drop 4 := by
    have h6 : (u.drop 4).drop 2 = u.drop 6 := by simp [List.drop_drop]
    rw [← h6, List.take_append_drop]
  simp only [List.append_assoc]
  rw [s4, s3, s2, List.take_append_drop]

lemma uuidString_facts (u : Bytes) (hub : ∀ b ∈ u, b < 256) :
    ∀ c ∈ uuidString u, c < 256 ∧ c ≠ 34 := by
  intro c hc
  have hrange : ∀ (x : Bytes), (∀ b ∈ x, b < 256) → ∀ c₀ ∈ hexEncode x,
      c₀ < 256 ∧ c₀ ≠ 34 := by
    intro x hx c₀ hc₀
    have := hexEncode_char_range x hx c₀ hc₀
    omega
  have hb1 : ∀ b ∈ u.take 4, b < 256 := fun b h => hub b (List.take_subset _ _ h)
  have hb2 : ∀ b ∈ (u.drop 4).take 2, b < 256 :=
    fun b h => hub b (List.drop_subset _ _ (List.take_subset _ _ h))
  have hb3 : ∀ b ∈ (u.drop 6).take 2, b < 256 :=
    fun b h => hub b (List.drop_subset _ _ (List.take_subset _ _ h))
  have hb4 : ∀ b ∈ (u.drop 8).take 2, b < 256 :=
    fun b h => hub b (List.drop_subset _ _ (List.take_subset _ _ h))
  have hb5 : ∀ b ∈ u.drop 10, b < 256 := fun b h => hub b (List.drop_subset _ _ h)
  simp only [uuidString, List.mem_append, List.mem_singleton] at hc
  rcases hc with (((((((h | h) | h) | h) | h) | h) | h) | h) | h
  · exact hrange _ hb1 c h
  · omega
  · exact hrange _ hb2 c h
  · omega
  · exact hrange _ hb3 c h
  · omega
  · exact hrange _ hb4 c h
  · omega
  · exact hrange _ hb5 c h

end auth

namespace auth

lemma parseClaims_claimsJson (iss sub : Bytes) (e i : Int)
    (hiss : ∀ c ∈ iss, c ≠ 34) (hsub : ∀ c ∈ sub, c ≠ 34) :
    parseClaims (claimsJson iss sub e i) = some (iss, sub, e, i) := by
  have hshape : claimsJson iss sub e i =
      ([123] ++ strBytes "\"iss\":\"") ++ (iss ++ 34 :: (strBytes ",\"sub\":\"" ++
        (sub ++ 34 :: (strBytes ",\"exp\":" ++ (intDec e ++ 44 ::
          (strBytes "\"iat\":" ++ (intDec i ++ 125 :: []))))))) := by
    have hcut : strBytes ",\"iat\":" = 44 :: strBytes "\"iat\":" := rfl
    simp [claimsJson, hcut]
  rw [hshape]
  simp only [parseClaims, Option.pure_def, Option.bind_eq_bind]
  rw [dropExact_append]
  simp only [Option.some_bind]
  rw [readUntilQuote_append _ _ hiss]
  simp only [Option.some_bind]
  rw [dropExact_append]
  simp only [Option.some_bind]
  rw [readUntilQuote_append _ _ hsub]
  simp only [Option.some_bind]
  rw [dropExact_append]
  simp only [Option.some_bind]
  rw [readInt_intDec e 44 _ (by decide)]
  simp only [Option.some_bind]
  rw [show (44 : Nat) :: (strBytes "\"iat\":" ++ (intDec i ++ 125 :: [])) =
      strBytes ",\"iat\":" ++ (intDec i ++ 125 :: []) from rfl]
  rw [dropExact_append]
  simp only [Option.some_bind]
  rw [readInt_intDec i 125 [] (by decide)]
  simp only [Option.some_bind]
  rw [show dropExact [125] (125 :: []) = some [] from rfl]
  simp

lemma be32_lt (n : Nat) : ∀ b ∈ be32 n, b < 256 := by
  intro b hb
  simp only [be32, List.mem_cons, List.mem_singleton, List.not_mem_nil, or_false] at hb
  rcases hb with h | h | h | h <;> (subst h; exact Nat.mod_lt _ (by omega))

lemma sha256_lt (m : Bytes) : ∀ b ∈ sha256 m, b < 256 := by
  intro b hb
  simp only [sha256, List.mem_flatMap] at hb
  obtain ⟨w, _, hbw⟩ := hb
  exact be32_lt w b hbw

lemma hmacSha256_lt (k m : Bytes) : ∀ b ∈ hmacSha256 k m, b < 256 := by
  intro b hb
  simp only [hmacSha256] at hb
  exact sha256_lt _ b hb

lemma natDec_lt (n : Nat) : ∀ c ∈ natDec n, c < 256 := by
  intro c hc
  have := natDec_digits n c hc
  simp [isDigit] at this
  omega

lemma intDec_lt (i : Int) : ∀ c ∈ intDec i, c < 256 := by
  intro c hc
  unfold intDec at hc
  split at hc
  · rcases List.mem_cons.mp hc with h | h
    · omega
    · exact natDec_lt _ c h
  · exact natDec_lt _ c hc

lemma claimsJson_lt (iss sub : Bytes) (e i : Int)
    (hiss : ∀ c ∈ iss, c < 256) (hsub : ∀ c ∈ sub, c < 256) :
    ∀ c ∈ claimsJson iss sub e i, c < 256 := by
  intro c hc
  have hs1 : ∀ c₀ ∈ strBytes "\"iss\":\"", c₀ < 256 := by decide
  have hs2 : ∀ c₀ ∈ strBytes ",\"sub\":\"", c₀ < 256 := by decide
  have hs3 : ∀ c₀ ∈ strBytes ",\"exp\":", c₀ < 256 := by decide
  have hs4 : ∀ c₀ ∈ strBytes ",\"iat\":", c₀ < 256 := by decide
  have hflat : c = 123 ∨ c ∈ strBytes "\"iss\":\"" ∨ c ∈ iss ∨ c = 34 ∨
      c ∈ strBytes ",\"sub\":\"" ∨ c ∈ sub ∨ c = 34 ∨ c ∈ strBytes ",\"exp\":" ∨
      c ∈ intDec e ∨ c ∈ strBytes ",\"iat\":" ∨ c ∈ intDec i ∨ c = 125 := by
    simpa [claimsJson, List.mem_append, or_assoc] using hc
  rcases hflat with h | h | h | h | h | h | h | h | h | h | h | h
  · omega
  · exact hs1 c h
  · exact hiss c h
  · omega
  · exact hs2 c h
  · exact hsub c h
  · omega
  · exact hs3 c h
  · exact intDec_lt e c h
  · exact hs4 c h
  · exact intDec_lt i c h
  · omega

end auth

namespace auth

lemma makeJWT_split (u s : Bytes) (d now : Int) :
    splitOnByte 46 (MakeJWT u s d now) =
      [b64encode headerJson,
       b64encode (claimsJson (strBytes "chirpy") (uuidString u) (now + d) now),
       b64encode (hmacSha256 s (b64encode headerJson ++ [46] ++
         b64encode (claimsJson (strBytes "chirpy") (uuidString u) (now + d) now)))] := by
  have hdotfree : ∀ (x : Bytes), ∀ c ∈ b64encode x, (decide (c = 46) : Bool) = false := by
    intro x c hc
    simp only [decide_eq_false_iff_not]
    exact b64encode_ne_dot x c hc
  have hshape : MakeJWT u s d now =
      b64encode headerJson ++ 46 ::
        (b64encode (claimsJson (strBytes "chirpy") (uuidString u) (now + d) now) ++ 46 ::
          b64encode (hmacSha256 s (b64encode headerJson ++ [46] ++
            b64encode (claimsJson (strBytes "chirpy") (uuidString u) (now + d) now)))) := by
    simp [MakeJWT]
  rw [hshape]
  unfold splitOnByte
  rw [splitOnPred_append_sep _ _ _ _ (hdotfree _) (by simp),
      splitOnPred_append_sep _ _ _ _ (hdotfree _) (by simp),
      splitOnPred_sepFree _ _ (hdotfree _)]

lemma validateJWT_makeJWT_eval (u s : Bytes) (d now t : Int)
    (hu : u.length = 16) (hub : ∀ b ∈ u, b < 256) :
    ValidateJWT (MakeJWT u s d now) s t =
      if t < now + d then Except.ok u else Except.error JwtError.expired := by
  have hC : ∀ c ∈ claimsJson (strBytes "chirpy") (uuidString u) (now + d) now, c < 256 :=
    claimsJson_lt _ _ _ _ (by decide) (fun c hc => (uuidString_facts u hub c hc).1)
  have hdecH : b64decode (b64encode headerJson) = some headerJson :=
    b64decode_b64encode _ (by decide)
  have hdecP : b64decode (b64encode
      (claimsJson (strBytes "chirpy") (uuidString u) (now + d) now)) =
      some (claimsJson (strBytes "chirpy") (uuidString u) (now + d) now) :=
    b64decode_b64encode _ hC
  have hdecS : b64decode (b64encode (hmacSha256 s (b64encode headerJson ++ [46] ++
      b64encode (claimsJson (strBytes "chirpy") (uuidString u) (now + d) now)))) =
      some (hmacSha256 s (b64encode headerJson ++ [46] ++
        b64encode (claimsJson (strBytes "chirpy") (uuidString u) (now + d) now))) :=
    b64decode_b64encode _ (hmacSha256_lt _ _)
  have hhdr : parseHeaderAlg headerJson = some (strBytes "HS256") := by
    simp [parseHeaderAlg]
  have hpc : parseClaims (claimsJson (strBytes "chirpy") (uuidString u) (now + d) now) =
      some (strBytes "chirpy", uuidString u, now + d, now) :=
    parseClaims_claimsJson _ _ _ _ (by decide)
      (fun c hc => (uuidString_facts u hub c hc).2)
  unfold ValidateJWT
  rw [makeJWT_split]
  simp only [hdecH, hdecP, hdecS, hhdr, hpc, if_true]
  rw [uuidParse_uuidString u hu hub]

end auth

/-- C1: validating a freshly issued token with the same secret, at a
verification time within the validity window, returns the original user
identifier: `ValidateJWT (MakeJWT u secret d now) secret t = ok u` for every
16-byte identifier, secret, positive duration `d` and `now ≤ t < now + d`. -/
theorem validateJWT_roundtrip (u secret : Bytes) (d now t : Int)
    (hu : u.length = 16) (hub : ∀ b ∈ u, b < 256) (hd : 0 < d)
    (h1 : now ≤ t) (h2 : t < now + d) :
    auth.ValidateJWT (auth.MakeJWT u secret d now) secret t = .ok u := by
  rw [auth.validateJWT_makeJWT_eval u secret d now t hu hub, if_pos h2]

theorem validateJWT_roundtrip_witness :
    auth.ValidateJWT
      (auth.MakeJWT (List.replicate 16 0) (strBytes "testsecret") 3600 1700000000)
      (strBytes "testsecret") 1700000010 = .ok (List.replicate 16 0) :=
  validateJWT_roundtrip (List.replicate 16 0) (strBytes "testsecret")
    3600 1700000000 1700000010 (by decide) (by decide) (by decide)
    (by decide) (by decide)

/-- C6: a token issued with a negative TTL (`-1` second) is produced
successfully but is already expired: validating it with the same secret at
any time at or after issuance fails with the expiry error. -/
theorem makeJWT_negativeTTL_expired (u secret : Bytes) (now t : Int)
    (hu : u.length = 16) (hub : ∀ b ∈ u, b < 256) (h : now ≤ t) :
    auth.ValidateJWT (auth.MakeJWT u secret (-1) now) secret t =
      .error .expired := by
  rw [auth.validateJWT_makeJWT_eval u secret (-1) now t hu hub,
    if_neg (by omega)]

theorem makeJWT_negativeTTL_expired_witness :
    auth.ValidateJWT
      (auth.MakeJWT (List.replicate 16 0) (strBytes "testsecret") (-1) 1700000000)
      (strBytes "testsecret") 1700000000 = .error .expired :=
  makeJWT_negativeTTL_expired (List.replicate 16 0) (strBytes "testsecret")
    1700000000 1700000000 (by decide) (by decide) (by decide)

/-- C3: the token minted by `MakeJWT` is an HS256 token whose payload
carries exactly the claims issuer `"chirpy"`, subject `uuidString userID`
(the canonical UUID string form), issued-at `now` and expires-at
`now + ttl` (so expires-at minus issued-at equals `ttl`), and whose
signature is the HMAC-SHA256 of the two base64url segments. -/
theorem makeJWT_claims_shape (u secret : Bytes) (ttl now : Int)
    (hu : u.length = 16) (hub : ∀ b ∈ u, b < 256) :
    auth.parseJwt (auth.MakeJWT u secret ttl now) =
      some (auth.headerJson,
        (strBytes "chirpy", auth.uuidString u, now + ttl, now),
        auth.hmacSha256 secret (auth.b64encode auth.headerJson ++ [46] ++
          auth.b64encode (auth.claimsJson (strBytes "chirpy") (auth.uuidString u)
            (now + ttl) now))) ∧
    (now + ttl) - now = ttl := by
  constructor
  · have hC : ∀ c ∈ auth.claimsJson (strBytes "chirpy") (auth.uuidString u)
        (now + ttl) now, c < 256 :=
      auth.claimsJson_lt _ _ _ _ (by decide)
        (fun c hc => (auth.uuidString_facts u hub c hc).1)
    have hdecH : auth.b64decode (auth.b64encode auth.headerJson) =
        some auth.headerJson := auth.b64decode_b64encode _ (by decide)
    have hdecP : auth.b64decode (auth.b64encode
        (auth.claimsJson (strBytes "chirpy") (auth.uuidString u) (now + ttl) now)) =
        some (auth.claimsJson (strBytes "chirpy") (auth.uuidString u) (now + ttl) now) :=
      auth.b64decode_b64encode _ hC
    have hdecS : auth.b64decode (auth.b64encode (auth.hmacSha256 secret
        (auth.b64encode auth.headerJson ++ [46] ++
          auth.b64encode (auth.claimsJson (strBytes "chirpy") (auth.uuidString u)
            (now + ttl) now)))) =
        some (auth.hmacSha256 secret (auth.b64encode auth.headerJson ++ [46] ++
          auth.b64encode (auth.claimsJson (strBytes "chirpy") (auth.uuidString u)
            (now + ttl) now))) :=
      auth.b64decode_b64encode _ (auth.hmacSha256_lt _ _)
    have hpc : auth.parseClaims (auth.claimsJson (strBytes "chirpy")
        (auth.uuidString u) (now + ttl) now) =
        some (strBytes "chirpy", auth.uuidString u, now + ttl, now) :=
      auth.parseClaims_claimsJson _ _ _ _ (by decide)
        (fun c hc => (auth.uuidString_facts u hub c hc).2)
    unfold auth.parseJwt
    rw [auth.makeJWT_split]
    simp only [hdecH, hdecP, hdecS, hpc, Option.pure_def, Option.bind_eq_bind,
      Option.some_bind]
  · omega

theorem makeJWT_claims_shape_witness :
    auth.parseJwt (auth.MakeJWT (List.replicate 16 0) (strBytes "s") 3600 1700000000) =
      some (auth.headerJson,
        (strBytes "chirpy", auth.uuidString (List.replicate 16 0),
          1700000000 + 3600, 1700000000),
        auth.hmacSha256 (strBytes "s") (auth.b64encode auth.headerJson ++ [46] ++
          auth.b64encode (auth.claimsJson (strBytes "chirpy")
            (auth.uuidString (List.replicate 16 0)) (1700000000 + 3600) 1700000000))) ∧
    (1700000000 + 3600 : Int) - 1700000000 = 3600 :=
  makeJWT_claims_shape (List.replicate 16 0) (strBytes "s") 3600 1700000000
    (by decide) (by decide)

/-- C4 counterexample: at `now` exactly equal to the stored expiry (so NOT
strictly before it), with the revocation timestamp unset, the refresh
handler still issues a JWT, because the code rejects only when
`ExpiresAt.Before(now)`, i.e. when expiry is strictly in the past. -/
theorem refreshTokenHandler_at_expiry_issues :
    (refreshTokenHandler (some (strBytes "Bearer tok"))
      (fun _ => .ok ⟨strBytes "tok", List.replicate 16 0, 100, none⟩)
      (strBytes "secret") 100).issued = true ∧ ¬((100 : Int) < 100) :=
  ⟨rfl, by omega⟩

/-- C4 (amended): a stored refresh token is usable iff the verification
time is at or before its expiry (the handler rejects only when the expiry
is strictly past) and its revocation timestamp is unset; the refresh
endpoint issues a one-hour JWT for the owning user precisely for such
tokens, and responds 401 without issuing anything when the token is past
expiry, revoked, or not found. -/
theorem refreshTokenHandler_spec (authHeader : Option Bytes)
    (lookup : Bytes → Except String RefreshTokenRow) (secret : Bytes) (now : Int) :
    (∀ token row, auth.GetBearerToken authHeader = .ok token →
      lookup token = .ok row →
      (refreshTokenHandler authHeader lookup secret now =
          .ok (auth.MakeJWT row.userID secret 3600 now) ↔
        now ≤ row.expiresAt ∧ row.revokedAt = none) ∧
      (¬(now ≤ row.expiresAt ∧ row.revokedAt = none) →
        ∃ msg, refreshTokenHandler authHeader lookup secret now =
          .errResp 401 msg)) ∧
    (∀ token e, auth.GetBearerToken authHeader = .ok token →
      lookup token = .error e →
      refreshTokenHandler authHeader lookup secret now =
        .errResp 401 "Invalid refresh token") := by
  constructor
  · intro token row hb hl
    by_cases h1 : row.expiresAt < now
    · constructor
      · simp [refreshTokenHandler, hb, hl, h1]
      · intro _
        exact ⟨"Refresh token expired", by simp [refreshTokenHandler, hb, hl, h1]⟩
    · by_cases h2 : row.revokedAt = none
      · constructor
        · simp [refreshTokenHandler, hb, hl, h1, h2]
          omega
        · intro hcontra
          exact absurd ⟨by omega, h2⟩ hcontra
      · have h2s : row.revokedAt.isSome = true := by
          rcases hrev : row.revokedAt with _ | v
          · exact absurd hrev h2
          · rfl
        constructor
        · simp [refreshTokenHandler, hb, hl, h1, h2s, h2]
        · intro _
          exact ⟨"Refresh token revoked", by
            simp [refreshTokenHandler, hb, hl, h1, h2s]⟩
  · intro token e hb hl
    simp [refreshTokenHandler, hb, hl]

theorem refreshTokenHandler_spec_witness :
    refreshTokenHandler (some (strBytes "Bearer tok"))
        (fun _ => Except.ok ⟨strBytes "tok", List.replicate 16 0, 200, none⟩)
        (strBytes "secret") 100 =
      .ok (auth.MakeJWT (List.replicate 16 0) (strBytes "secret") 3600 100) := by
  have h := (refreshTokenHandler_spec (some (strBytes "Bearer tok"))
    (fun _ => Except.ok ⟨strBytes "tok", List.replicate 16 0, 200, none⟩)
    (strBytes "secret") 100).1 (strBytes "tok")
    ⟨strBytes "tok", List.replicate 16 0, 200, none⟩ (by decide) rfl
  exact h.1.mpr ⟨by decide, rfl⟩

namespace auth

lemma b64encode_mem (bs : Bytes) : ∀ c ∈ b64encode bs, ∃ v, c = b64Char v := by
  induction bs using b64encode.induct with
  | case1 b1 b2 b3 rest ih =>
    intro c hc
    simp only [b64encode, List.mem_cons] at hc
    rcases hc with h | h | h | h | h
    · exact ⟨_, h⟩
    · exact ⟨_, h⟩
    · exact ⟨_, h⟩
    · exact ⟨_, h⟩
    · exact ih c h
  | case2 b1 b2 =>
    intro c hc
    simp only [b64encode, List.mem_cons, List.not_mem_nil, or_false] at hc
    rcases hc with h | h | h <;> exact ⟨_, h⟩
  | case3 b1 =>
    intro c hc
    simp only [b64encode, List.mem_cons, List.not_mem_nil, or_false] at hc
    rcases hc with h | h <;> exact ⟨_, h⟩
  | case4 => intro c hc; simp [b64encode] at hc

lemma b64Char_not_space (v : Nat) : isSpaceByte (b64Char v) = false := by
  have h : 45 ≤ b64Char v := by unfold b64Char; split_ifs <;> omega
  simp only [isSpaceByte, Bool.or_eq_false_iff, decide_eq_false_iff_not]
  omega

lemma makeJWT_shape (u s : Bytes) (d now : Int) :
    MakeJWT u s d now =
      b64encode headerJson ++ 46 ::
        (b64encode (claimsJson (strBytes "chirpy") (uuidString u) (now + d) now) ++ 46 ::
          b64encode (hmacSha256 s (b64encode headerJson ++ [46] ++
            b64encode (claimsJson (strBytes "chirpy") (uuidString u) (now + d) now)))) := by
  simp [MakeJWT]

lemma makeJWT_not_space (u s : Bytes) (d now : Int) :
    ∀ c ∈ MakeJWT u s d now, isSpaceByte c = false := by
  intro c hc
  rw [makeJWT_shape] at hc
  have henc : ∀ (x : Bytes), ∀ c₀ ∈ b64encode x, isSpaceByte c₀ = false := by
    intro x c₀ hc₀
    obtain ⟨v, hv⟩ := b64encode_mem x c₀ hc₀
    exact hv ▸ b64Char_not_space v
  simp only [List.mem_append, List.mem_cons] at hc
  rcases hc with h | h | h | h | h
  · exact henc _ c h
  · subst h; rfl
  · exact henc _ c h
  · subst h; rfl
  · exact henc _ c h

lemma makeJWT_ne_nil (u s : Bytes) (d now : Int) : MakeJWT u s d now ≠ [] := by
  rw [makeJWT_shape]
  simp

lemma fields_append_space (A B : Bytes) (hA0 : A ≠ [])
    (hA : ∀ c ∈ A, isSpaceByte c = false) (hB0 : B ≠ [])
    (hB : ∀ c ∈ B, isSpaceByte c = false) :
    fields (A ++ 32 :: B) = [A, B] := by
  unfold fields
  rw [splitOnPred_append_sep isSpaceByte A 32 B hA (by decide),
    splitOnPred_sepFree _ _ hB]
  simp [hA0, hB0]

lemma getBearerToken_bearer (tok : Bytes) (h0 : tok ≠ [])
    (hns : ∀ c ∈ tok, isSpaceByte c = false) :
    GetBearerToken (some (strBytes "Bearer " ++ tok)) = .ok tok := by
  have hsh : strBytes "Bearer " ++ tok = strBytes "Bearer" ++ 32 :: tok := by
    simp [strBytes]
  have hf : fields (strBytes "Bearer " ++ tok) = [strBytes "Bearer", tok] := by
    rw [hsh]
    exact fields_append_space _ _ (by decide) (by decide) h0 hns
  have hne : strBytes "Bearer " ++ tok ≠ [] := by simp [strBytes]
  simp [GetBearerToken, headerGet, hne, hf]

end auth

/-- C10: with a valid bearer JWT, a decoded body whose byte length exceeds
140 makes the handler respond 400 `Chirp is too long` without ever calling
the store (`CreateChirp`); the check counts bytes (`utf8ByteSize`, the Go
`len`) and runs only after authentication: with an invalid token the
handler responds 401 regardless of the body length. -/
theorem createChirp_length_check :
    (∀ (body : String) (hdr : Option Bytes) (secret tok uid : Bytes) (now : Int)
      (store : String → Bytes → Except String Unit),
      auth.GetBearerToken hdr = .ok tok →
      auth.ValidateJWT tok secret now = .ok uid →
      140 < body.utf8ByteSize →
      createChirpHandler (some body) hdr secret now store =
        .resp 400 (some "Chirp is too long") false) ∧
    (∀ (body : String) (hdr : Option Bytes) (secret tok : Bytes)
      (e : auth.JwtError) (now : Int)
      (store : String → Bytes → Except String Unit),
      auth.GetBearerToken hdr = .ok tok →
      auth.ValidateJWT tok secret now = .error e →
      createChirpHandler (some body) hdr secret now store =
        .resp 401 (some "Invalid token") false) := by
  constructor
  · intro body hdr secret tok uid now store hb hv hlen
    simp [createChirpHandler, hb, hv, hlen]
  · intro body hdr secret tok e now store hb hv
    simp [createChirpHandler, hb, hv]

theorem createChirp_length_check_witness :
    (createChirpHandler (some (String.mk (List.replicate 71 (Char.ofNat 233))))
        (some (strBytes "Bearer " ++
          auth.MakeJWT (List.replicate 16 0) (strBytes "secret") 3600 1700000000))
        (strBytes "secret") 1700000000 (fun _ _ => .ok ()) =
      .resp 400 (some "Chirp is too long") false) ∧
    (createChirpHandler (some (String.mk (List.replicate 71 (Char.ofNat 233))))
        (some (strBytes "Bearer nota.jwt"))
        (strBytes "secret") 1700000000 (fun _ _ => .ok ()) =
      .resp 401 (some "Invalid token") false) := by
  constructor
  · exact createChirp_length_check.1
      (String.mk (List.replicate 71 (Char.ofNat 233)))
      (some (strBytes "Bearer " ++
        auth.MakeJWT (List.replicate 16 0) (strBytes "secret") 3600 1700000000))
      (strBytes "secret")
      (auth.MakeJWT (List.replicate 16 0) (strBytes "secret") 3600 1700000000)
      (List.replicate 16 0) 1700000000 (fun _ _ => .ok ())
      (auth.getBearerToken_bearer _ (auth.makeJWT_ne_nil _ _ _ _)
        (auth.makeJWT_not_space _ _ _ _))
      (by rw [auth.validateJWT_makeJWT_eval _ _ _ _ _ (by decide) (by decide)]
          exact if_pos (by decide))
      (by decide)
  · exact createChirp_length_check.2
      (String.mk (List.replicate 71 (Char.ofNat 233)))
      (some (strBytes "Bearer nota.jwt")) (strBytes "secret")
      (strBytes "nota.jwt") .malformed 1700000000 (fun _ _ => .ok ())
      (by decide) rfl


set_option maxRecDepth 1000000 in
set_option maxHeartbeats 8000000 in
/-- C5 evidence: the code accepts a verification secret different from the
signing secret and accepts a token differing from the issued one in a
single character. With `tok := MakeJWT u "testsecret" 3600 1700000000`
(the literal `sampleToken`): appending a NUL byte to the secret yields a
different secret that still validates (HMAC zero-pads short keys, so both
secrets normalize to the same key block), and replacing the final
character `Q` (81) by `R` (82) flips only the two discarded base64
padding bits of the signature segment, so the mutated token still
validates (golang-jwt decodes with non-strict `RawURLEncoding`). -/
theorem validateJWT_malleability :
    auth.MakeJWT [18, 52, 86, 120, 154, 188, 222, 240, 1, 2, 3, 4, 5, 6, 7, 8]
      (strBytes "testsecret") 3600 1700000000 = sampleToken ∧
    strBytes "testsecret" ++ [0] ≠ strBytes "testsecret" ∧
    auth.ValidateJWT sampleToken (strBytes "testsecret" ++ [0]) 1700000000 =
      .ok [18, 52, 86, 120, 154, 188, 222, 240, 1, 2, 3, 4, 5, 6, 7, 8] ∧
    sampleToken.getLast? = some 81 ∧
    sampleToken.dropLast ++ [82] ≠ sampleToken ∧
    auth.ValidateJWT (sampleToken.dropLast ++ [82])
      (strBytes "testsecret") 1700000000 =
      .ok [18, 52, 86, 120, 154, 188, 222, 240, 1, 2, 3, 4, 5, 6, 7, 8] :=
  ⟨rfl, by decide, rfl, by decide, by decide, rfl⟩
